import Mathlib

/-!
Verification of the meta-tiny-agents core: the `ClientsRegistry` tool registry
(src/clientsRegistry.ts), the `TinyAgent.run` agent loop (src/tinyAgents.ts)
and the `RAG.chunkText` splitter (src/rag/rag.ts), shallowly embedded in Lean.

Conventions of the embedding:
* JavaScript strings are modelled by Lean `String` (and, for the chunker,
  by `List Char`, since the chunker is pure character arithmetic).
* JavaScript exceptions are modelled by `Except JsErr`.
* JavaScript arrays that are mutated in place by the agent loop are modelled
  by an explicit heap of cells (`Heap`) addressed by `Ref`, so that aliasing
  between the conversation array and telemetry records is represented
  faithfully; `[...xs]` is `Heap.alloc`, `xs.push(m)` is `Heap.push`,
  `xs.splice(i, 0, m)` is `Heap.insertAt`, `xs.unshift(m)` is
  `Heap.insertAt _ 0`.
* External collaborators (the OpenAI chat completion endpoint, MCP client
  processes) are modelled as pure functions supplied as parameters, exactly
  as the spec treats them (a model caller, a provider with `listTools` and
  `callTool`).
* Wall-clock timestamps (`Date.now()`) are not modelled; no claim refers to
  them.
-/

set_option autoImplicit false

namespace MetaTinyAgents

/-! ### JSON values and `JSON.parse`

`JSON.parse` is the ECMAScript built-in used by `ClientsRegistry.callTool`
(line `JSON.parse(toolCall.function.arguments ?? "{}")`) and by the agent
loop (`JSON.parse(toolCall.function.arguments || "{}")`).  It is modelled by
a fuelled recursive-descent parser over the JSON grammar.  Number literals
are kept as their raw text and string escapes are decoded only for the
single-character escapes; no claim depends on either detail.  The facts the
claims rely on are structural: parsing the empty (or all-whitespace) string
fails with a syntax error, `"{}"` parses to the empty object, and a
syntactically valid object parses successfully. -/

inductive Json where
  | null : Json
  | bool (b : Bool) : Json
  | num (raw : String) : Json
  | str (s : String) : Json
  | arr (elems : List Json) : Json
  | obj (fields : List (String × Json)) : Json

def jsonWs (c : Char) : Bool :=
  c = ' ' || c = '\t' || c = '\n' || c = '\r'

def skipWs : List Char → List Char
  | [] => []
  | c :: cs => if jsonWs c then skipWs cs else c :: cs

def escapeChar (c : Char) : Char :=
  if c = 'n' then '\n'
  else if c = 't' then '\t'
  else if c = 'r' then '\r'
  else if c = 'b' then (Char.ofNat 8)
  else if c = 'f' then (Char.ofNat 12)
  else c

/-- Parses the remainder of a JSON string literal (the opening quote has
already been consumed); returns the decoded content and the rest of the
input. -/
def parseStringRest : List Char → Except String (List Char × List Char)
  | [] => .error "Unterminated string in JSON"
  | '"' :: cs => .ok ([], cs)
  | '\\' :: [] => .error "Unterminated string in JSON"
  | '\\' :: e :: cs =>
    match parseStringRest cs with
    | .error m => .error m
    | .ok (s, rest) => .ok (escapeChar e :: s, rest)
  | c :: cs =>
    match parseStringRest cs with
    | .error m => .error m
    | .ok (s, rest) => .ok (c :: s, rest)

def numChar (c : Char) : Bool :=
  c.isDigit || c = '-' || c = '+' || c = '.' || c = 'e' || c = 'E'

mutual

/-- Parses one JSON value; fuelled so the definition is structural and
computable by the kernel. -/
def parseValue : Nat → List Char → Except String (Json × List Char)
  | 0, _ => .error "JSON nesting too deep"
  | fuel + 1, input =>
    match skipWs input with
    | [] => .error "Unexpected end of JSON input"
    | '{' :: cs => parseObjRest fuel cs
    | '[' :: cs => parseArrRest fuel cs
    | '"' :: cs =>
      match parseStringRest cs with
      | .error m => .error m
      | .ok (s, rest) => .ok (.str (String.mk s), rest)
    | 't' :: 'r' :: 'u' :: 'e' :: cs => .ok (.bool true, cs)
    | 'f' :: 'a' :: 'l' :: 's' :: 'e' :: cs => .ok (.bool false, cs)
    | 'n' :: 'u' :: 'l' :: 'l' :: cs => .ok (.null, cs)
    | c :: cs =>
      if numChar c then
        .ok (.num (String.mk (c :: cs.takeWhile numChar)), cs.dropWhile numChar)
      else
        .error "Unexpected token in JSON"

/-- Parses the members of an object after the opening brace. -/
def parseObjRest : Nat → List Char → Except String (Json × List Char)
  | 0, _ => .error "JSON nesting too deep"
  | fuel + 1, input =>
    match skipWs input with
    | '}' :: cs => .ok (.obj [], cs)
    | rest => parseMembers fuel rest []

/-- Parses a comma-separated list of `"key": value` members followed by a
closing brace. -/
def parseMembers : Nat → List Char → List (String × Json) →
    Except String (Json × List Char)
  | 0, _, _ => .error "JSON nesting too deep"
  | fuel + 1, input, acc =>
    match skipWs input with
    | '"' :: cs =>
      match parseStringRest cs with
      | .error m => .error m
      | .ok (key, afterKey) =>
        match skipWs afterKey with
        | ':' :: cs2 =>
          match parseValue fuel cs2 with
          | .error m => .error m
          | .ok (v, afterVal) =>
            match skipWs afterVal with
            | ',' :: cs3 => parseMembers fuel cs3 (acc ++ [(String.mk key, v)])
            | '}' :: cs3 => .ok (.obj (acc ++ [(String.mk key, v)]), cs3)
            | _ => .error "Expected , or \x7d in JSON object"
        | _ => .error "Expected : in JSON object"
    | _ => .error "Expected string key in JSON object"

/-- Parses the elements of an array after the opening bracket. -/
def parseArrRest : Nat → List Char → Except String (Json × List Char)
  | 0, _ => .error "JSON nesting too deep"
  | fuel + 1, input =>
    match skipWs input with
    | ']' :: cs => .ok (.arr [], cs)
    | rest => parseElems fuel rest []

/-- Parses a comma-separated list of array elements followed by a closing
bracket. -/
def parseElems : Nat → List Char → List Json → Except String (Json × List Char)
  | 0, _, _ => .error "JSON nesting too deep"
  | fuel + 1, input, acc =>
    match parseValue fuel input with
    | .error m => .error m
    | .ok (v, afterVal) =>
      match skipWs afterVal with
      | ',' :: cs => parseElems fuel cs (acc ++ [v])
      | ']' :: cs => .ok (.arr (acc ++ [v]), cs)
      | _ => .error "Expected , or ] in JSON array"

end

/-- Models the ECMAScript built-in `JSON.parse`: parses one JSON value and
requires the rest of the input to be whitespace. -/
def jsonParse (s : String) : Except String Json :=
  match parseValue (s.length + 1) s.toList with
  | .error m => .error m
  | .ok (v, rest) =>
    match skipWs rest with
    | [] => .ok v
    | _ => .error "Unexpected non-whitespace character after JSON"

/-- Models the JavaScript property access `obj.questions` coerced to the
string handed to the clarification callback; absent or non-string
properties give the empty string (no claim depends on this detail). -/
def Json.getStr (j : Json) (key : String) : String :=
  match j with
  | .obj fields =>
    match fields.find? (fun f => f.1 = key) with
    | some (_, .str s) => s
    | _ => ""
  | _ => ""


/-! ### JavaScript errors

Each `throw new Error(...)` reachable from the embedded code, tagged by
site.  The registry errors carry the same data the templated message
carries. -/

inductive JsErr where
  | unsupportedTransport (transportType : String) : JsErr
  | toolNotFound (name : String) : JsErr
  | clientNotRegistered (name : String) : JsErr
  | jsonSyntaxError (msg : String) : JsErr
  | missingInputCallback : JsErr
deriving DecidableEq, Repr

/-! ### String-keyed objects

`ClientsRegistry` stores its clients in a plain object
(`private clients: Record<string, Client> = {}`).  A JavaScript object with
string keys is an insertion-ordered map where assignment to an existing key
overwrites in place; `Object.keys`/`Object.entries` enumerate in insertion
order.  Modelled as an association list with those semantics. -/

def objSet {α : Type} (m : List (String × α)) (k : String) (v : α) :
    List (String × α) :=
  if m.any (fun p => p.1 = k) then
    m.map (fun p => if p.1 = k then (k, v) else p)
  else
    m ++ [(k, v)]

def objGet {α : Type} (m : List (String × α)) (k : String) : Option α :=
  (m.find? (fun p => p.1 = k)).map (fun p => p.2)

def objKeys {α : Type} (m : List (String × α)) : List String :=
  m.map (fun p => p.1)

/-! ### The tool registry (src/clientsRegistry.ts)

An MCP client (the external provider process reached through the SDK
`Client`) is modelled by the two capabilities the registry uses: its
`listTools()` catalog and its `callTool` behaviour, the latter as a pure
function from the function name and parsed arguments to the provider
result.  `register` abstracts the transport spawn + connect as receiving
the connected client for the supported transport kind. -/

structure ClientTool where
  name : String
  description : Option String
  inputSchema : Json

structure MCPClient where
  tools : List ClientTool
  call : String → Json → String

def INTERACTION_SERVER : String := "interaction-server"

structure AvailableTool where
  clientName : String
  fname : String
  description : Option String
  parameters : Json

/-- Shape of a tool call as `ClientsRegistry.callTool` receives it:
`{ function: { name: string; arguments?: string } }`. -/
structure RegToolCall where
  fname : String
  args : Option String

structure ClientsRegistry where
  clients : List (String × MCPClient)

/-- The `defaultTools` array of `ClientsRegistry`.  In the source the
`ask_question` entry is commented out, so the array holds a single entry,
the `task_complete` tool. -/
def taskCompleteTool : AvailableTool :=
  { clientName := INTERACTION_SERVER
    fname := "task_complete"
    description := some "Call this tool when the task given by the user is complete"
    parameters := Json.obj [("type", Json.str "object"), ("properties", Json.obj [])] }

def defaultTools : List AvailableTool := [taskCompleteTool]

/-- `ClientsRegistry.register`: only the `"stdio"` transport is supported;
the spawned-and-connected client is stored under `name` (assignment to a
JavaScript object key: last write wins). -/
def ClientsRegistry.register (reg : ClientsRegistry) (transportType name : String)
    (client : MCPClient) : Except JsErr ClientsRegistry :=
  if transportType = "stdio" then
    .ok ⟨objSet reg.clients name client⟩
  else
    .error (.unsupportedTransport transportType)

/-- `ClientsRegistry.getTools`: the default tools followed by every tool of
every registered client (clients in registration order, each client in its
own catalog order), each tagged with its owning client name. -/
def ClientsRegistry.getTools (reg : ClientsRegistry) : List AvailableTool :=
  defaultTools ++
    reg.clients.flatMap (fun nc =>
      nc.2.tools.map (fun t =>
        { clientName := nc.1
          fname := t.name
          description := t.description
          parameters := t.inputSchema }))

def ClientsRegistry.getClientsNames (reg : ClientsRegistry) : List String :=
  objKeys reg.clients

/-- `ClientsRegistry.callTool`: parses
`toolCall.function.arguments ?? "{}"` (the nullish fallback covers only an
absent `arguments`, not the empty string), re-queries the catalog, looks up
the owning client of the function name, short-circuits the built-in
interaction-server tools to `undefined` (modelled `none`), and otherwise
forwards to the owning client. -/
def ClientsRegistry.callTool (reg : ClientsRegistry) (toolCall : RegToolCall) :
    Except JsErr (Option String) :=
  match jsonParse (toolCall.args.getD "{}") with
  | .error m => .error (.jsonSyntaxError m)
  | .ok argsObject =>
    let allTools := reg.getTools
    match allTools.find? (fun t => t.fname = toolCall.fname) with
    | none => .error (.toolNotFound toolCall.fname)
    | some matching =>
      if matching.clientName = INTERACTION_SERVER then
        .ok none
      else
        match objGet reg.clients matching.clientName with
        | none => .error (.clientNotRegistered matching.clientName)
        | some client => .ok (some (client.call toolCall.fname argsObject))

/-- `ClientsRegistry.closeClient`: throws when `name` is not a key of the
client map, otherwise awaits `client.close()` (an external effect, recorded
as the returned close-event list).  The client map itself is not modified
by the source (there is no `delete this.clients[name]`), so the registry
state after the call is returned unchanged. -/
def ClientsRegistry.closeClient (reg : ClientsRegistry) (name : String) :
    Except JsErr (ClientsRegistry × List String) :=
  match objGet reg.clients name with
  | none => .error (.clientNotRegistered name)
  | some _ => .ok (reg, [name])

/-- Helper for `cleanup`: `Object.keys(this.clients).map(key =>
this.closeClient(key))` awaited with `Promise.all`.  The close calls are
independent external effects; they are threaded sequentially here, which
agrees with the concurrent original because `closeClient` never changes the
registry state. -/
def cleanupGo : ClientsRegistry → List String → Except JsErr (ClientsRegistry × List String)
  | reg, [] => .ok (reg, [])
  | reg, k :: ks =>
    match reg.closeClient k with
    | .error e => .error e
    | .ok (reg2, evs) =>
      match cleanupGo reg2 ks with
      | .error e => .error e
      | .ok (reg3, rest) => .ok (reg3, evs ++ rest)

def ClientsRegistry.cleanup (reg : ClientsRegistry) :
    Except JsErr (ClientsRegistry × List String) :=
  cleanupGo reg (objKeys reg.clients)

/-- Discriminates the JSON-parse failure of `callTool` (the `JSON.parse`
step throwing a `SyntaxError`) from its other outcomes. -/
def isParseError {α : Type} : Except JsErr α → Bool
  | .error (.jsonSyntaxError _) => true
  | _ => false


/-! ### Conversation messages and a heap of message arrays

`TinyAgent.run` mutates message arrays in place (`conversation.push`, the
RAG `splice`/`unshift`) while telemetry records keep references to them, so
arrays of `Msg` are modelled as heap cells addressed by index. -/

/-- A tool call requested by the model, as the agent loop reads it:
`{ id, function: { name, arguments } }` with `arguments : string`. -/
structure ToolCallReq where
  id : String
  fname : String
  args : String
deriving DecidableEq, Repr

/-- A conversation message.  Roles are the strings used by the source
(`"system"`, `"user"`, `"assistant"`, `"tool"`); `content` is `none` for a
JavaScript `null`/`undefined` content; `tool_calls` is empty when the field
is absent; `tool_call_id` is set on tool-role messages. -/
structure Msg where
  role : String
  content : Option String
  tool_calls : List ToolCallReq
  tool_call_id : Option String
deriving DecidableEq, Repr

abbrev Ref := Nat

structure Heap where
  cells : List (List Msg)
deriving DecidableEq, Repr

/-- Models a JavaScript array literal copy such as `[...xs]`: a fresh array
cell. -/
def Heap.alloc (h : Heap) (v : List Msg) : Heap × Ref :=
  (⟨h.cells ++ [v]⟩, h.cells.length)

def Heap.get (h : Heap) (r : Ref) : List Msg :=
  (h.cells.get? r).getD []

def Heap.set (h : Heap) (r : Ref) (v : List Msg) : Heap :=
  ⟨h.cells.set r v⟩

/-- Models `xs.push(m)`. -/
def Heap.push (h : Heap) (r : Ref) (m : Msg) : Heap :=
  h.set r (h.get r ++ [m])

/-- Models `xs.splice(i, 0, m)` (and `xs.unshift(m)` at `i = 0`). -/
def Heap.insertAt (h : Heap) (r : Ref) (i : Nat) (m : Msg) : Heap :=
  h.set r ((h.get r).take i ++ [m] ++ (h.get r).drop i)

/-! ### The agent loop (TinyAgent.run, src/tinyAgents.ts)

The model caller abstracts `openai.chat.completions.create` in the
non-streaming invocation mode (no `onStreamAnswer` callback supplied): a
pure function from the one-based invocation number and the request message
list to the returned `choices[0].message`.  The run is parameterised by the
already-computed RAG context string (`performRAGRetrieval` swallows every
retrieval failure and yields `""`, and yields `""` when no query was
given), by the optional `requestInputFromUser` callback, and by the heap
cell holding the caller-owned `baseMessages` array. -/

/-- JavaScript `a || b` on strings: the empty string is falsy. -/
def jsOr (a b : String) : String :=
  if a = "" then b else a

/-- Per-model-call telemetry.  `llmCalls.push({requestMessages:
conversation, ...})` stores the conversation array itself, so the field is
a reference, not a copy. -/
structure LLMTelemetry where
  requestMessages : Ref
  responseMessage : Msg
deriving DecidableEq, Repr

/-- Per-tool-call telemetry: `{toolCallId, toolName, params, result, ...}`.
The result is `none` when the registry returned `undefined`. -/
structure ToolCallTelemetry where
  toolCallId : String
  toolName : String
  params : Json
  result : Option String

structure RunResult where
  conversation : Ref
  llmCalls : List LLMTelemetry
  toolCalls : List ToolCallTelemetry

/-- Models `JSON.stringify(result)` for the tool-output message content:
`undefined` stringifies to `undefined` (content `none`), a string
stringifies to a quoted literal (escaping elided; no claim reads the
content). -/
def jsonStringifyOpt : Option String → Option String
  | none => none
  | some s => some ("\"" ++ s ++ "\"")

def toolOutputMsg (toolCallId : String) (result : Option String) : Msg :=
  { role := "tool"
    content := jsonStringifyOpt result
    tool_calls := []
    tool_call_id := some toolCallId }

/-- One tool dispatch of the loop body: parse
`toolCall.function.arguments || "{}"`, then branch on the function name —
`task_complete` bumps the acknowledgement counter with an empty result,
`ask_question` requires the `requestInputFromUser` callback, anything else
goes through `ClientsRegistry.callTool` (note the registry re-parses the
raw `arguments` with the `??` fallback).  Returns the parsed params, the
result, and whether the acknowledgement counter is to be bumped. -/
def execToolCall (reg : ClientsRegistry)
    (requestInputFromUser : Option (String → String)) (tc : ToolCallReq) :
    Except JsErr (Json × Option String × Bool) :=
  match jsonParse (jsOr tc.args "{}") with
  | .error m => .error (.jsonSyntaxError m)
  | .ok params =>
    if tc.fname = "task_complete" then
      .ok (params, some "", true)
    else if tc.fname = "ask_question" then
      match requestInputFromUser with
      | none => .error .missingInputCallback
      | some ask => .ok (params, some (ask (params.getStr "questions")), false)
    else
      match reg.callTool ⟨tc.fname, some tc.args⟩ with
      | .error e => .error e
      | .ok r => .ok (params, r, false)

/-- The `for (const toolCall of toolCallsRequested)` loop: strictly
sequential; each successful dispatch appends one telemetry record and
pushes one tool-output message onto the conversation; a thrown error
propagates immediately (aborting the remaining dispatches) while keeping
the mutations already made. -/
def processToolCalls (reg : ClientsRegistry)
    (requestInputFromUser : Option (String → String)) (convRef : Ref) :
    List ToolCallReq → Heap → List ToolCallTelemetry → Nat →
    Heap × Except JsErr (List ToolCallTelemetry × Nat)
  | [], h, acc, ack => (h, .ok (acc, ack))
  | tc :: rest, h, acc, ack =>
    match execToolCall reg requestInputFromUser tc with
    | .error e => (h, .error e)
    | .ok (params, result, isComplete) =>
      let ack2 := if isComplete then ack + 1 else ack
      let acc2 := acc ++ [⟨tc.id, tc.fname, params, result⟩]
      let h2 := h.push convRef (toolOutputMsg tc.id result)
      processToolCalls reg requestInputFromUser convRef rest h2 acc2 ack2

/-- The `while (interactionCount < this.maxInteractions && taskCompleteAck
< 2)` loop.  The first argument is the number of remaining interactions
(`maxInteractions - interactionCount`), the second the number of model
invocations already made, then the acknowledgement counter, the heap, and
the accumulated telemetry lists. -/
def runLoop (reg : ClientsRegistry) (model : Nat → List Msg → Msg)
    (requestInputFromUser : Option (String → String)) (convRef : Ref) :
    Nat → Nat → Nat → Heap → List LLMTelemetry → List ToolCallTelemetry →
    Heap × Except JsErr (List LLMTelemetry × List ToolCallTelemetry)
  | 0, _, _, h, llmCalls, toolCalls => (h, .ok (llmCalls, toolCalls))
  | fuel + 1, callsMade, ack, h, llmCalls, toolCalls =>
    if 2 ≤ ack then (h, .ok (llmCalls, toolCalls))
    else
      let responseMessage := model (callsMade + 1) (h.get convRef)
      let llmCalls2 := llmCalls ++ [⟨convRef, responseMessage⟩]
      let h2 := h.push convRef responseMessage
      if responseMessage.tool_calls = [] then
        (h2, .ok (llmCalls2, toolCalls))
      else
        match processToolCalls reg requestInputFromUser convRef
            responseMessage.tool_calls h2 toolCalls ack with
        | (h3, .error e) => (h3, .error e)
        | (h3, .ok (toolCalls3, ack3)) =>
          runLoop reg model requestInputFromUser convRef fuel (callsMade + 1)
            ack3 h3 llmCalls2 toolCalls3

/-- The default of `config.maxInteractions ?? 10` in the `TinyAgent`
constructor. -/
def defaultMaxInteractions : Nat := 10

/-- The RAG-context splice on the copied base-message array: when a
retrieved context string is present, it is inserted as a system message
immediately after the first system message of the array at `r`, or
prepended (`unshift`) when the array has no system message. -/
def ragSplice (ragContext : String) (h : Heap) (r : Ref) : Heap :=
  if ragContext = "" then h
  else
    match (h.get r).findIdx? (fun m => m.role = "system") with
    | some i => h.insertAt r (i + 1) ⟨"system", some ragContext, [], none⟩
    | none => h.insertAt r 0 ⟨"system", some ragContext, [], none⟩

/-- `TinyAgent.run`: copy the caller-owned base messages
(`[...options.baseMessages]`), splice in the RAG context as a system
message when the retrieval produced one (after the first system message,
else prepended), copy again into the conversation array, and iterate the
loop.  The returned heap reflects the mutations of the run whether it
finished normally or threw. -/
def TinyAgent.run (reg : ClientsRegistry) (maxInteractions : Nat)
    (model : Nat → List Msg → Msg)
    (requestInputFromUser : Option (String → String)) (ragContext : String)
    (h0 : Heap) (baseRef : Ref) : Heap × Except JsErr RunResult :=
  let a1 := h0.alloc (h0.get baseRef)
  let h2 := ragSplice ragContext a1.1 a1.2
  let a2 := h2.alloc (h2.get a1.2)
  match runLoop reg model requestInputFromUser a2.2 maxInteractions 0 0 a2.1 [] [] with
  | (h4, .error e) => (h4, .error e)
  | (h4, .ok (llmCalls, toolCalls)) =>
    (h4, .ok ⟨a2.2, llmCalls, toolCalls⟩)

/-- Observation on a run outcome: the request message list of the first
model-call telemetry entry, dereferenced in the heap as it stands when the
run has returned — what the caller reads from
`result.llmCalls[0].requestMessages`. -/
def firstRequestMessages (out : Heap × Except JsErr RunResult) : Option (List Msg) :=
  match out.2 with
  | .ok res => res.llmCalls.head?.map (fun e => out.1.get e.requestMessages)
  | .error _ => none

/-- Observation on a run outcome: the length of the `llmCalls` telemetry
list, `none` when the run threw. -/
def llmCallCount (out : Heap × Except JsErr RunResult) : Option Nat :=
  match out.2 with
  | .ok res => some res.llmCalls.length
  | .error _ => none

/-- A model response that requests the built-in completion signal once. -/
def taskCompleteCall : ToolCallReq := ⟨"call-1", "task_complete", "{}"⟩

def taskCompleteMsg : Msg := ⟨"assistant", none, [taskCompleteCall], none⟩

def userHiMsg : Msg := ⟨"user", some "hi", [], none⟩





/-! ### The text chunker (RAG.chunkText, src/rag/rag.ts)

Text is modelled as `List Char`.  The helpers mirror, in order: the
JavaScript `t.includes(sep)`, `t.split(sep)`, the character-level
`for (j = 0; j < t.length; j += max) out.push(t.slice(j, j + max))` loop,
the merge-with-max-size loop, and the overlap-seeding loop.  The two
loops that advance by `max`/past the separator are fuelled by the input
length so the definitions stay structural (the fuel is sufficient whenever
the step size is positive, which `chunkText` guarantees by returning early
on a non-positive size). -/

/-- JavaScript `t.includes(sep)`. -/
def includesSub (sep : List Char) : List Char → Bool
  | [] => sep.isEmpty
  | c :: cs => sep.isPrefixOf (c :: cs) || includesSub sep cs

/-- Worker for `t.split(sep)`: leftmost non-overlapping matches; `acc` is
the current segment, reversed. -/
def splitGo (sep : List Char) : Nat → List Char → List Char → List (List Char)
  | 0, acc, t => [acc.reverse ++ t]
  | _ + 1, acc, [] => [acc.reverse]
  | fuel + 1, acc, c :: cs =>
    if sep.isPrefixOf (c :: cs) then
      acc.reverse :: splitGo sep fuel [] (cs.drop (sep.length - 1))
    else
      splitGo sep fuel (c :: acc) cs

/-- JavaScript `t.split(sep)` for a non-empty separator. -/
def splitOnSub (sep t : List Char) : List (List Char) :=
  splitGo sep (t.length + 1) [] t

/-- Worker for the character-level split. -/
def charSplitGo (max : Nat) : Nat → List Char → List (List Char)
  | 0, _ => []
  | _ + 1, [] => []
  | fuel + 1, c :: cs => (c :: cs).take max :: charSplitGo max fuel ((c :: cs).drop max)

/-- The character-level split `out.push(t.slice(j, j + max))`. -/
def charSplit (max : Nat) (t : List Char) : List (List Char) :=
  charSplitGo max t.length t

/-- The merge loop: greedily joins parts with the separator while the
result stays within `max`; `current` starts empty and is flushed at the
end when non-empty. -/
def mergeGo (max : Nat) (sep : List Char) :
    List (List Char) → List Char → List (List Char)
  | [], current => if current = [] then [] else [current]
  | p :: ps, current =>
    if p = [] then mergeGo max sep ps current
    else if current = [] then mergeGo max sep ps p
    else if current.length + sep.length + p.length ≤ max then
      mergeGo max sep ps (current ++ sep ++ p)
    else
      current :: mergeGo max sep ps p

def mergeParts (max : Nat) (sep : List Char) (parts : List (List Char)) :
    List (List Char) :=
  mergeGo max sep parts []

/-- The overlap-seeding loop over `baseChunks[k]` for `k ≥ 1`: `prev` is
the chunk most recently appended to `overlapped`.  The seed is the
`overlap`-character suffix of `prev`; when the seed alone fills the budget
(dead under the clamp `overlap < size`) the seed is cropped and the next
chunk re-split by characters; otherwise the next chunk is trimmed so that
seed plus chunk fits in `size`. -/
def overlapGo (size overlap : Nat) :
    List Char → List (List Char) → List (List Char)
  | _, [] => []
  | prev, next :: ks =>
    let seed := prev.drop (prev.length - overlap)
    if size ≤ seed.length then
      let croppedSeed :=
        if size - 1 = 0 then seed else seed.drop (seed.length - (size - 1))
      let pieces := charSplit size next
      (croppedSeed :: pieces) ++
        overlapGo size overlap (pieces.getLastD croppedSeed) ks
    else
      let available := size - seed.length
      let next2 := if available < next.length then next.take available else next
      (seed ++ next2) :: overlapGo size overlap (seed ++ next2) ks

/-- The overlap step: the first chunk is kept unchanged, every later chunk
is reseeded with the suffix of its predecessor. -/
def applyOverlap (size overlap : Nat) : List (List Char) → List (List Char)
  | [] => []
  | c0 :: rest => c0 :: overlapGo size overlap c0 rest

def SEPARATORS : List (List Char) := [['\n', '\n'], ['\n'], [' '], []]

/-- The recursive splitter `splitRecursive(input, max, seps)`.  `size` and
`overlap` are the enclosing `chunkText` locals captured by the closure
(`max` is always passed along unchanged).  Scans the separators in order:
the empty separator splits by characters; the first separator occurring in
the input splits, recursively re-splits oversized parts with the remaining
separators, merges, and applies the overlap seeding; a separator not
occurring falls through to the next.  The fallback after the loop is the
character split (dead for the separator list in use, which ends in the
empty separator). -/
def splitRec (size overlap max : Nat) :
    List (List Char) → List Char → List (List Char)
  | [], input =>
    if input.length ≤ max then [input] else charSplit max input
  | sep :: rest, input =>
    if input.length ≤ max then [input]
    else if sep = [] then charSplit max input
    else if includesSub sep input then
      let parts := (splitOnSub sep input).flatMap (fun part =>
        if part = [] then []
        else if part.length ≤ max then [part]
        else splitRec size overlap max rest part)
      let baseChunks := mergeParts max sep parts
      if overlap = 0 ∨ baseChunks.length ≤ 1 then baseChunks
      else applyOverlap size overlap baseChunks
    else splitRec size overlap max rest input

/-- `chunkText(text, size, overlap)` with the overlap explicit.  A
non-positive or non-finite size returns the whole text as one chunk; in
`Nat` that degenerate guard is `size = 0`.  The `overlap < 0` clamp is
vacuous in `Nat`; the `overlap >= size` clamp falls back to
`Math.floor(size / 3)`. -/
def chunkTextWithOverlap (text : List Char) (size overlap : Nat) :
    List (List Char) :=
  if size = 0 then [text]
  else
    let ov := if size ≤ overlap then size / 3 else overlap
    splitRec size ov size SEPARATORS text

/-- The default overlap `Math.floor(size * 0.15)`.  As exact rational
arithmetic this is `size * 15 / 100`; the double-precision product can
round differently only far beyond any realistic size, and every chunk-size
theorem below is proved for an arbitrary overlap value, so no result
depends on the rounding. -/
def defaultOverlap (size : Nat) : Nat := size * 15 / 100

/-- `chunkText(text, size)` as called by the indexing pipeline (the
optional overlap parameter left at its default). -/
def chunkText (text : List Char) (size : Nat) : List (List Char) :=
  chunkTextWithOverlap text size (defaultOverlap size)


/-- Shape of a model response that requests the completion signal exactly
once (a single `task_complete` tool call whose argument string parses,
possibly after the `|| "{}"` fallback). -/
def callsTaskCompleteOnce (m : Msg) : Prop :=
  ∃ i a, m.tool_calls = [⟨i, "task_complete", a⟩] ∧
    ∃ j, jsonParse (jsOr a "{}") = .ok j

/-! ## Heap lemmas -/

theorem list_get?_set_ne {α : Type} (l : List α) (i j : Nat) (v : α)
    (h : i ≠ j) : (l.set i v).get? j = l.get? j :=
  List.get?_set_ne v l h

theorem Heap.get_set_ne (h : Heap) (r1 r2 : Ref) (v : List Msg)
    (hne : r1 ≠ r2) : (h.set r1 v).get r2 = h.get r2 := by
  simp only [Heap.set, Heap.get]
  rw [list_get?_set_ne _ _ _ _ hne]

theorem Heap.get_push_ne (h : Heap) (r1 r2 : Ref) (m : Msg)
    (hne : r1 ≠ r2) : (h.push r1 m).get r2 = h.get r2 :=
  Heap.get_set_ne _ _ _ _ hne

theorem Heap.get_insertAt_ne (h : Heap) (r1 r2 : Ref) (i : Nat) (m : Msg)
    (hne : r1 ≠ r2) : (h.insertAt r1 i m).get r2 = h.get r2 :=
  Heap.get_set_ne _ _ _ _ hne

theorem Heap.get_alloc_of_lt (h : Heap) (v : List Msg) (r : Ref)
    (hr : r < h.cells.length) : (h.alloc v).1.get r = h.get r := by
  simp only [Heap.alloc, Heap.get]
  rw [List.get?_append hr]

theorem Heap.length_set (h : Heap) (r : Ref) (v : List Msg) :
    (h.set r v).cells.length = h.cells.length :=
  List.length_set _ _ _

theorem Heap.length_push (h : Heap) (r : Ref) (m : Msg) :
    (h.push r m).cells.length = h.cells.length :=
  Heap.length_set _ _ _

theorem Heap.length_insertAt (h : Heap) (r : Ref) (i : Nat) (m : Msg) :
    (h.insertAt r i m).cells.length = h.cells.length :=
  Heap.length_set _ _ _

theorem Heap.length_alloc (h : Heap) (v : List Msg) :
    (h.alloc v).1.cells.length = h.cells.length + 1 := by
  simp [Heap.alloc]

/-! ## Registry lemmas -/

theorem callTool_not_found (reg : ClientsRegistry) (name : String)
    (args : Option String) (j : Json)
    (hp : jsonParse (args.getD "{}") = .ok j)
    (hn : name ∉ reg.getTools.map (fun t => t.fname)) :
    reg.callTool ⟨name, args⟩ = .error (.toolNotFound name) := by
  have hfind : reg.getTools.find? (fun t => t.fname = name) = none := by
    refine List.find?_eq_none.mpr fun t ht => ?_
    simp only [decide_eq_true_eq]
    intro heq
    exact hn (List.mem_map.mpr ⟨t, ht, heq⟩)
  simp only [ClientsRegistry.callTool, hp, hfind]

theorem callTool_absent_args_no_parse_error (reg : ClientsRegistry)
    (name : String) : isParseError (reg.callTool ⟨name, none⟩) = false := by
  have hp : jsonParse ((none : Option String).getD "{}") = .ok (.obj []) := rfl
  simp only [ClientsRegistry.callTool, hp]
  cases hf : reg.getTools.find? (fun t => t.fname = name) with
  | none => simp [isParseError]
  | some m =>
    by_cases hc : m.clientName = INTERACTION_SERVER
    · simp [hc, isParseError]
    · cases hg : objGet reg.clients m.clientName with
      | none => simp [hc, hg, isParseError]
      | some c => simp [hc, hg, isParseError]

theorem objGet_isSome_of_mem_keys {α : Type} (m : List (String × α))
    (k : String) (hk : k ∈ objKeys m) : (objGet m k).isSome := by
  simp only [objKeys, List.mem_map] at hk
  obtain ⟨p, hp, hk⟩ := hk
  have : (m.find? (fun q => q.1 = k)).isSome :=
    List.find?_isSome.mpr ⟨p, hp, by simp [hk]⟩
  simpa [objGet] using this

theorem cleanupGo_ok (reg : ClientsRegistry) :
    ∀ ks : List String, (∀ k ∈ ks, (objGet reg.clients k).isSome) →
      cleanupGo reg ks = .ok (reg, ks) := by
  intro ks
  induction ks with
  | nil => intro _; rfl
  | cons k ks ih =>
    intro hall
    obtain ⟨c, hc⟩ := Option.isSome_iff_exists.mp (hall k (by simp))
    have hrest := ih (fun x hx => hall x (by simp [hx]))
    simp only [cleanupGo, ClientsRegistry.closeClient, hc, hrest]
    rfl

/-! ## Chunker lemmas -/

theorem mem_charSplitGo_length (max : Nat) :
    ∀ (fuel : Nat) (t c : List Char), c ∈ charSplitGo max fuel t →
      c.length ≤ max := by
  intro fuel
  induction fuel with
  | zero => intro t c hc; simp [charSplitGo] at hc
  | succ fuel ih =>
    intro t c hc
    cases t with
    | nil => simp [charSplitGo] at hc
    | cons x xs =>
      rcases List.mem_cons.mp hc with heq | hmem
      · subst heq
        rw [List.length_take]
        exact Nat.min_le_left _ _
      · exact ih _ _ hmem

theorem mem_charSplit_length (max : Nat) (t c : List Char)
    (hc : c ∈ charSplit max t) : c.length ≤ max :=
  mem_charSplitGo_length max _ t c hc

theorem mem_mergeGo_length (max : Nat) (sep : List Char) :
    ∀ (parts : List (List Char)) (current : List Char),
      (∀ p ∈ parts, p.length ≤ max) → current.length ≤ max →
      ∀ c ∈ mergeGo max sep parts current, c.length ≤ max := by
  intro parts
  induction parts with
  | nil =>
    intro current _ hcur c hc
    simp only [mergeGo] at hc
    split at hc
    · simp at hc
    · rw [List.mem_singleton.mp hc]; exact hcur
  | cons p ps ih =>
    intro current hall hcur c hc
    have hp_le : p.length ≤ max := hall p (by simp)
    have hps : ∀ q ∈ ps, q.length ≤ max := fun q hq => hall q (by simp [hq])
    simp only [mergeGo] at hc
    by_cases hpnil : p = []
    · rw [if_pos hpnil] at hc
      exact ih current hps hcur c hc
    · rw [if_neg hpnil] at hc
      by_cases hcurnil : current = []
      · rw [if_pos hcurnil] at hc
        exact ih p hps hp_le c hc
      · rw [if_neg hcurnil] at hc
        by_cases hfit : current.length + sep.length + p.length ≤ max
        · rw [if_pos hfit] at hc
          refine ih (current ++ sep ++ p) hps ?_ c hc
          simp only [List.length_append]
          omega
        · rw [if_neg hfit] at hc
          rcases List.mem_cons.mp hc with heq | hmem
          · subst heq; exact hcur
          · exact ih p hps hp_le c hmem

theorem seed_length_le (prev : List Char) (overlap : Nat) :
    (prev.drop (prev.length - overlap)).length ≤ overlap := by
  rw [List.length_drop]
  omega

theorem mem_overlapGo_length (size overlap : Nat) (hov : overlap < size) :
    ∀ (ks : List (List Char)) (prev c : List Char),
      c ∈ overlapGo size overlap prev ks → c.length ≤ size := by
  intro ks
  induction ks with
  | nil => intro prev c hc; simp [overlapGo] at hc
  | cons next ks ih =>
    intro prev c hc
    have hseed : ¬ size ≤ (prev.drop (prev.length - overlap)).length := by
      have := seed_length_le prev overlap; omega
    simp only [overlapGo] at hc
    rw [if_neg hseed] at hc
    rcases List.mem_cons.mp hc with heq | hmem
    · subst heq
      have hsl := seed_length_le prev overlap
      by_cases havail :
          size - (prev.drop (prev.length - overlap)).length < next.length
      · rw [if_pos havail]
        simp only [List.length_append, List.length_take]
        omega
      · rw [if_neg havail]
        simp only [List.length_append]
        omega
    · exact ih _ c hmem

theorem mem_applyOverlap_length (size overlap : Nat) (hov : overlap < size)
    (bs : List (List Char)) (hbs : ∀ b ∈ bs, b.length ≤ size) :
    ∀ c ∈ applyOverlap size overlap bs, c.length ≤ size := by
  cases bs with
  | nil => intro c hc; simp [applyOverlap] at hc
  | cons c0 rest =>
    intro c hc
    rcases List.mem_cons.mp hc with heq | hmem
    · subst heq; exact hbs c (by simp)
    · exact mem_overlapGo_length size overlap hov rest c0 c hmem

theorem mem_splitRec_length (size overlap : Nat) (hov : overlap < size) :
    ∀ (seps : List (List Char)) (input c : List Char),
      c ∈ splitRec size overlap size seps input → c.length ≤ size := by
  intro seps
  induction seps with
  | nil =>
    intro input c hc
    simp only [splitRec] at hc
    split at hc
    · next hle => rw [List.mem_singleton.mp hc]; exact hle
    · exact mem_charSplit_length size input c hc
  | cons sep rest ih =>
    intro input c hc
    simp only [splitRec] at hc
    split at hc
    · next hle => rw [List.mem_singleton.mp hc]; exact hle
    · split at hc
      · exact mem_charSplit_length size input c hc
      · split at hc
        · have hparts : ∀ p ∈ (splitOnSub sep input).flatMap (fun part =>
              if part = [] then []
              else if part.length ≤ size then [part]
              else splitRec size overlap size rest part),
              p.length ≤ size := by
            intro p hp
            obtain ⟨part, _, hpin⟩ := List.mem_flatMap.mp hp
            by_cases h1 : part = []
            · rw [if_pos h1] at hpin; simp at hpin
            · rw [if_neg h1] at hpin
              by_cases h2 : part.length ≤ size
              · rw [if_pos h2] at hpin
                rw [List.mem_singleton.mp hpin]; exact h2
              · rw [if_neg h2] at hpin
                exact ih part p hpin
          have hbase := mem_mergeGo_length size sep _ []
            hparts (by simp)
          split at hc
          · exact hbase c hc
          · exact mem_applyOverlap_length size overlap hov _ hbase c hc
        · exact ih input c hc

theorem chunkTextWithOverlap_length (text : List Char) (size overlap : Nat)
    (c : List Char) (hs : 0 < size)
    (hc : c ∈ chunkTextWithOverlap text size overlap) : c.length ≤ size := by
  unfold chunkTextWithOverlap at hc
  rw [if_neg (by omega)] at hc
  have hov : (if size ≤ overlap then size / 3 else overlap) < size := by
    split
    · exact Nat.div_lt_self hs (by norm_num)
    · omega
  exact mem_splitRec_length size _ hov SEPARATORS text c hc

theorem includesSub_false_of_not_mem (a : Char) (s t : List Char)
    (h : ∀ x ∈ t, x ≠ a) : includesSub (a :: s) t = false := by
  induction t with
  | nil => rfl
  | cons c cs ih =>
    simp only [includesSub, Bool.or_eq_false_iff]
    refine ⟨?_, ih (fun x hx => h x (by simp [hx]))⟩
    have hca : c ≠ a := h c (by simp)
    show (a == c && s.isPrefixOf cs) = false
    simp [Ne.symm hca]

theorem charSplitGo_flatten (max : Nat) (hmax : 0 < max) :
    ∀ (fuel : Nat) (t : List Char), t.length ≤ fuel →
      (charSplitGo max fuel t).flatten = t := by
  intro fuel
  induction fuel with
  | zero =>
    intro t ht
    rw [List.eq_nil_of_length_eq_zero (Nat.le_zero.mp ht)]
    rfl
  | succ fuel ih =>
    intro t ht
    cases t with
    | nil => rfl
    | cons x xs =>
      simp only [charSplitGo, List.flatten_cons]
      rw [ih ((x :: xs).drop max) (by simp only [List.length_drop]; simp at ht ⊢; omega)]
      exact List.take_append_drop max (x :: xs)

theorem charSplit_flatten (max : Nat) (hmax : 0 < max) (t : List Char) :
    (charSplit max t).flatten = t :=
  charSplitGo_flatten max hmax t.length t (Nat.le_refl _)

theorem chunkTextWithOverlap_flatten_of_no_separators (text : List Char)
    (size overlap : Nat) (hs : 0 < size)
    (hsep : ∀ ch ∈ text, ch ≠ '\n' ∧ ch ≠ ' ') :
    (chunkTextWithOverlap text size overlap).flatten = text := by
  unfold chunkTextWithOverlap
  rw [if_neg (by omega)]
  by_cases hlen : text.length ≤ size
  · simp [SEPARATORS, splitRec, hlen]
  · have h1 : includesSub ['\n', '\n'] text = false :=
      includesSub_false_of_not_mem '\n' ['\n'] text (fun x hx => (hsep x hx).1)
    have h2 : includesSub ['\n'] text = false :=
      includesSub_false_of_not_mem '\n' [] text (fun x hx => (hsep x hx).1)
    have h3 : includesSub [' '] text = false :=
      includesSub_false_of_not_mem ' ' [] text (fun x hx => (hsep x hx).2)
    simp only [SEPARATORS, splitRec, if_neg hlen, h1, h2, h3]
    exact charSplit_flatten size hs text

/-! ## Agent-loop lemmas -/

theorem runLoop_zero (reg : ClientsRegistry) (model : Nat → List Msg → Msg)
    (ri : Option (String → String)) (cr : Ref) (cm ack : Nat) (h : Heap)
    (llm : List LLMTelemetry) (tool : List ToolCallTelemetry) :
    runLoop reg model ri cr 0 cm ack h llm tool = (h, .ok (llm, tool)) := rfl

theorem runLoop_succ (reg : ClientsRegistry) (model : Nat → List Msg → Msg)
    (ri : Option (String → String)) (cr : Ref) (fuel cm ack : Nat) (h : Heap)
    (llm : List LLMTelemetry) (tool : List ToolCallTelemetry) :
    runLoop reg model ri cr (fuel + 1) cm ack h llm tool =
      if 2 ≤ ack then (h, .ok (llm, tool))
      else if (model (cm + 1) (h.get cr)).tool_calls = [] then
        (h.push cr (model (cm + 1) (h.get cr)),
         .ok (llm ++ [⟨cr, model (cm + 1) (h.get cr)⟩], tool))
      else
        match processToolCalls reg ri cr (model (cm + 1) (h.get cr)).tool_calls
            (h.push cr (model (cm + 1) (h.get cr))) tool ack with
        | (h3, .error e) => (h3, .error e)
        | (h3, .ok (tool3, ack3)) =>
          runLoop reg model ri cr fuel (cm + 1) ack3 h3
            (llm ++ [⟨cr, model (cm + 1) (h.get cr)⟩]) tool3 := rfl

theorem ragSplice_get_ne (rag : String) (h : Heap) (r r2 : Ref)
    (hne : r2 ≠ r) : (ragSplice rag h r).get r2 = h.get r2 := by
  unfold ragSplice
  split
  · rfl
  · split
    · exact Heap.get_insertAt_ne h r r2 _ _ (Ne.symm hne)
    · exact Heap.get_insertAt_ne h r r2 _ _ (Ne.symm hne)

theorem ragSplice_length (rag : String) (h : Heap) (r : Ref) :
    (ragSplice rag h r).cells.length = h.cells.length := by
  unfold ragSplice
  split
  · rfl
  · split
    · exact Heap.length_insertAt h r _ _
    · exact Heap.length_insertAt h r _ _

theorem runLoop_succ_stop (reg : ClientsRegistry) (model : Nat → List Msg → Msg)
    (ri : Option (String → String)) (cr : Ref) (fuel cm ack : Nat) (h : Heap)
    (llm : List LLMTelemetry) (tool : List ToolCallTelemetry)
    (hack : 2 ≤ ack) :
    runLoop reg model ri cr (fuel + 1) cm ack h llm tool = (h, .ok (llm, tool)) := by
  rw [runLoop_succ, if_pos hack]

theorem runLoop_succ_ok (reg : ClientsRegistry) (model : Nat → List Msg → Msg)
    (ri : Option (String → String)) (cr : Ref) (fuel cm ack : Nat) (h : Heap)
    (llm : List LLMTelemetry) (tool : List ToolCallTelemetry) (h3 : Heap)
    (tool3 : List ToolCallTelemetry) (ack3 : Nat)
    (hack : ¬ 2 ≤ ack)
    (hcalls : (model (cm + 1) (h.get cr)).tool_calls ≠ [])
    (hptc : processToolCalls reg ri cr (model (cm + 1) (h.get cr)).tool_calls
        (h.push cr (model (cm + 1) (h.get cr))) tool ack = (h3, .ok (tool3, ack3))) :
    runLoop reg model ri cr (fuel + 1) cm ack h llm tool =
      runLoop reg model ri cr fuel (cm + 1) ack3 h3
        (llm ++ [⟨cr, model (cm + 1) (h.get cr)⟩]) tool3 := by
  rw [runLoop_succ, if_neg hack, if_neg hcalls, hptc]

theorem runLoop_succ_err (reg : ClientsRegistry) (model : Nat → List Msg → Msg)
    (ri : Option (String → String)) (cr : Ref) (fuel cm ack : Nat) (h : Heap)
    (llm : List LLMTelemetry) (tool : List ToolCallTelemetry) (h3 : Heap)
    (e : JsErr)
    (hack : ¬ 2 ≤ ack)
    (hcalls : (model (cm + 1) (h.get cr)).tool_calls ≠ [])
    (hptc : processToolCalls reg ri cr (model (cm + 1) (h.get cr)).tool_calls
        (h.push cr (model (cm + 1) (h.get cr))) tool ack = (h3, .error e)) :
    runLoop reg model ri cr (fuel + 1) cm ack h llm tool = (h3, .error e) := by
  rw [runLoop_succ, if_neg hack, if_neg hcalls, hptc]

theorem execToolCall_taskComplete (reg : ClientsRegistry)
    (ri : Option (String → String)) (i a : String) (j : Json)
    (hp : jsonParse (jsOr a "{}") = .ok j) :
    execToolCall reg ri ⟨i, "task_complete", a⟩ = .ok (j, some "", true) := by
  simp [execToolCall, hp]

theorem execToolCall_other (reg : ClientsRegistry)
    (ri : Option (String → String)) (tc : ToolCallReq) (j : Json)
    (hp : jsonParse (jsOr tc.args "{}") = .ok j)
    (h1 : tc.fname ≠ "task_complete") (h2 : tc.fname ≠ "ask_question") :
    execToolCall reg ri tc =
      match reg.callTool ⟨tc.fname, some tc.args⟩ with
      | .error e => .error e
      | .ok r => .ok (j, r, false) := by
  simp [execToolCall, hp, if_neg h1, if_neg h2]

theorem processToolCalls_singleton_taskComplete (reg : ClientsRegistry)
    (ri : Option (String → String)) (cr : Ref) (i a : String) (j : Json)
    (h : Heap) (acc : List ToolCallTelemetry) (ack : Nat)
    (hp : jsonParse (jsOr a "{}") = .ok j) :
    processToolCalls reg ri cr [⟨i, "task_complete", a⟩] h acc ack =
      (h.push cr (toolOutputMsg i (some "")),
       .ok (acc ++ [⟨i, "task_complete", j, some ""⟩], ack + 1)) := by
  simp [processToolCalls, execToolCall_taskComplete reg ri i a j hp]

theorem processToolCalls_ok_of_all_ok (reg : ClientsRegistry)
    (ri : Option (String → String)) (cr : Ref) :
    ∀ (tcs : List ToolCallReq) (h : Heap) (acc : List ToolCallTelemetry)
      (ack : Nat),
      (∀ tc ∈ tcs, (execToolCall reg ri tc).isOk = true) →
      ∃ hf tels ackf,
        processToolCalls reg ri cr tcs h acc ack = (hf, .ok (acc ++ tels, ackf)) ∧
          tels.map (fun t => t.toolName) = tcs.map (fun t => t.fname) := by
  intro tcs
  induction tcs with
  | nil =>
    intro h acc ack _
    exact ⟨h, [], ack, by simp [processToolCalls], rfl⟩
  | cons tc rest ih =>
    intro h acc ack hall
    have hok := hall tc (by simp)
    cases hex : execToolCall reg ri tc with
    | error e => rw [hex] at hok; simp [Except.isOk, Except.toBool] at hok
    | ok v =>
      obtain ⟨params, result, isC⟩ := v
      obtain ⟨hf, tels, ackf, heq, hnames⟩ :=
        ih (h.push cr (toolOutputMsg tc.id result))
          (acc ++ [⟨tc.id, tc.fname, params, result⟩])
          (if isC then ack + 1 else ack)
          (fun x hx => hall x (by simp [hx]))
      refine ⟨hf, ⟨tc.id, tc.fname, params, result⟩ :: tels, ackf, ?_, ?_⟩
      · simp only [processToolCalls, hex]
        rw [heq]
        simp
      · simp [hnames]

theorem runLoop_llm_length_le (reg : ClientsRegistry)
    (model : Nat → List Msg → Msg) (ri : Option (String → String)) (cr : Ref) :
    ∀ (fuel cm ack : Nat) (h : Heap) (llm : List LLMTelemetry)
      (tool : List ToolCallTelemetry) (hf : Heap) (llm2 : List LLMTelemetry)
      (tool2 : List ToolCallTelemetry),
      runLoop reg model ri cr fuel cm ack h llm tool = (hf, .ok (llm2, tool2)) →
      llm2.length ≤ llm.length + fuel := by
  intro fuel
  induction fuel with
  | zero =>
    intro cm ack h llm tool hf llm2 tool2 heq
    rw [runLoop_zero] at heq
    simp only [Prod.mk.injEq, Except.ok.injEq] at heq
    obtain ⟨-, heq2, -⟩ := heq
    subst heq2
    omega
  | succ fuel ih =>
    intro cm ack h llm tool hf llm2 tool2 heq
    rw [runLoop_succ] at heq
    by_cases hack : 2 ≤ ack
    · rw [if_pos hack] at heq
      simp only [Prod.mk.injEq, Except.ok.injEq] at heq
      obtain ⟨-, heq2, -⟩ := heq
      subst heq2
      omega
    · rw [if_neg hack] at heq
      by_cases hempty : (model (cm + 1) (h.get cr)).tool_calls = []
      · rw [if_pos hempty] at heq
        simp only [Prod.mk.injEq, Except.ok.injEq] at heq
        obtain ⟨-, heq2, -⟩ := heq
        subst heq2
        simp only [List.length_append, List.length_singleton]
        omega
      · rw [if_neg hempty] at heq
        rcases hptc : processToolCalls reg ri cr
            (model (cm + 1) (h.get cr)).tool_calls
            (h.push cr (model (cm + 1) (h.get cr))) tool ack with ⟨h3, ex⟩
        rw [hptc] at heq
        cases ex with
        | error e => simp at heq
        | ok pr =>
          obtain ⟨tool3, ack3⟩ := pr
          have hlen := ih (cm + 1) ack3 h3
            (llm ++ [⟨cr, model (cm + 1) (h.get cr)⟩]) tool3 hf llm2 tool2 heq
          simp only [List.length_append, List.length_singleton] at hlen
          omega

theorem processToolCalls_get_ne (reg : ClientsRegistry)
    (ri : Option (String → String)) (cr r : Ref) (hne : r ≠ cr) :
    ∀ (tcs : List ToolCallReq) (h : Heap) (acc : List ToolCallTelemetry)
      (ack : Nat),
      ((processToolCalls reg ri cr tcs h acc ack).1).get r = h.get r := by
  intro tcs
  induction tcs with
  | nil => intro h acc ack; rfl
  | cons tc rest ih =>
    intro h acc ack
    simp only [processToolCalls]
    cases hex : execToolCall reg ri tc with
    | error e => rfl
    | ok v =>
      obtain ⟨p, res, b⟩ := v
      rw [ih]
      exact Heap.get_push_ne h cr r (toolOutputMsg tc.id res) (Ne.symm hne)

theorem runLoop_get_ne (reg : ClientsRegistry) (model : Nat → List Msg → Msg)
    (ri : Option (String → String)) (cr r : Ref) (hne : r ≠ cr) :
    ∀ (fuel cm ack : Nat) (h : Heap) (llm : List LLMTelemetry)
      (tool : List ToolCallTelemetry),
      ((runLoop reg model ri cr fuel cm ack h llm tool).1).get r = h.get r := by
  intro fuel
  induction fuel with
  | zero => intro cm ack h llm tool; rfl
  | succ fuel ih =>
    intro cm ack h llm tool
    rw [runLoop_succ]
    by_cases hack : 2 ≤ ack
    · rw [if_pos hack]
    · rw [if_neg hack]
      by_cases hempty : (model (cm + 1) (h.get cr)).tool_calls = []
      · rw [if_pos hempty]
        exact Heap.get_push_ne h cr r _ (Ne.symm hne)
      · rw [if_neg hempty]
        have hptcget := processToolCalls_get_ne reg ri cr r hne
          (model (cm + 1) (h.get cr)).tool_calls
          (h.push cr (model (cm + 1) (h.get cr))) tool ack
        split
        · next h3 e heq =>
            rw [heq] at hptcget
            simpa [Heap.get_push_ne h cr r _ (Ne.symm hne)] using hptcget
        · next h3 tool3 ack3 heq =>
            rw [heq] at hptcget
            rw [ih]
            simpa [Heap.get_push_ne h cr r _ (Ne.symm hne)] using hptcget

/-! ## Claim theorems -/

/-- C9: `TinyAgent.run` never mutates the caller-owned `baseMessages`
array.  For every registry, interaction budget, model caller, clarification
callback, RAG context (including runs whose RAG pre-step splices a
retrieved-context system message — the splice happens on a fresh copy) and
heap cell holding the caller array, the cell is unchanged when `run`
returns, whether it returned normally or threw: same length, same elements,
same order. -/
theorem C9_run_preserves_baseMessages (reg : ClientsRegistry) (maxI : Nat)
    (model : Nat → List Msg → Msg) (ri : Option (String → String))
    (rag : String) (h0 : Heap) (baseRef : Ref)
    (hvalid : baseRef < h0.cells.length) :
    ((TinyAgent.run reg maxI model ri rag h0 baseRef).1).get baseRef =
      h0.get baseRef := by
  simp only [TinyAgent.run]
  set h1 := (h0.alloc (h0.get baseRef)).1 with hh1
  set enh := (h0.alloc (h0.get baseRef)).2 with hhenh
  set h2 := ragSplice rag h1 enh with hh2
  set h3 := (h2.alloc (h2.get enh)).1 with hh3
  set conv := (h2.alloc (h2.get enh)).2 with hhconv
  have f1 : h1.get baseRef = h0.get baseRef :=
    Heap.get_alloc_of_lt h0 _ baseRef hvalid
  have hne_enh : baseRef ≠ enh := by
    rw [hhenh]
    show baseRef ≠ h0.cells.length
    exact Nat.ne_of_lt hvalid
  have f3 : h2.get baseRef = h1.get baseRef :=
    ragSplice_get_ne rag h1 enh baseRef hne_enh
  have f4 : h2.cells.length = h0.cells.length + 1 := by
    rw [hh2, ragSplice_length, hh1, Heap.length_alloc]
  have hlt2 : baseRef < h2.cells.length := by
    rw [f4]
    exact Nat.lt_succ_of_lt hvalid
  have f6 : baseRef ≠ conv := by
    rw [hhconv]
    show baseRef ≠ h2.cells.length
    exact Nat.ne_of_lt hlt2
  have f7 : h3.get baseRef = h2.get baseRef :=
    Heap.get_alloc_of_lt h2 _ baseRef hlt2
  have f8 := runLoop_get_ne reg model ri conv baseRef f6 maxI 0 0 h3 [] []
  split
  · next h4 e heq =>
    rw [heq] at f8
    rw [f8, f7, f3, f1]
  · next h4 llm tool heq =>
    rw [heq] at f8
    rw [f8, f7, f3, f1]

/-- Witness for C9 at a concrete input: an empty registry, a model that
always answers with a completion-signal call, a one-message base array in
cell 0. -/
theorem C9_run_preserves_baseMessages_witness :
    ((TinyAgent.run ⟨[]⟩ 10 (fun _ _ => taskCompleteMsg) none ""
      ⟨[[userHiMsg]]⟩ 0).1).get 0 = Heap.get ⟨[[userHiMsg]]⟩ 0 :=
  C9_run_preserves_baseMessages ⟨[]⟩ 10 (fun _ _ => taskCompleteMsg) none ""
    ⟨[[userHiMsg]]⟩ 0 (by decide)

/-- C7: the claim says `getTools` on an empty provider set returns exactly
the two pseudo-tools `task_complete` and `ask_question`.  The code returns
only `task_complete`: the `ask_question` entry of `defaultTools` is
commented out in src/clientsRegistry.ts, contradicting both the doc comment
of `getTools` (which still promises "the two default interaction-server
tools") and the unit test in test/clientsRegistry.test.ts (which expects
`["ask_question", "task_complete"]`).  This theorem evaluates the code at
the failing input: with zero providers the catalog is the single built-in
`task_complete` (trivially "built-ins first"). -/
theorem C7_getTools_empty_registry :
    ClientsRegistry.getTools ⟨[]⟩ = [taskCompleteTool] ∧
      (ClientsRegistry.getTools ⟨[]⟩).map (fun t => t.fname) = ["task_complete"] :=
  ⟨rfl, rfl⟩

/-- C8: the claim says each per-model-call telemetry record is immutable
once appended and captures the request message list as of that invocation.
The code stores the live `conversation` array itself
(`llmCalls.push({requestMessages: conversation, ...})` with no copy), so
later pushes mutate every already-appended record.  At the failing input
(base `[user "hi"]`, a model answering `task_complete` each turn): the
conversation passed to the first model invocation is the single user
message — conjunct 2 evaluates the pre-loop conversation cell, which is
what that first request saw — yet after the run the caller reads the first
telemetry record `requestMessages` value as the final five-message
conversation (conjunct 1), not the one-message snapshot (conjunct 3). -/
theorem C8_telemetry_requestMessages_aliased :
    firstRequestMessages (TinyAgent.run ⟨[]⟩ 10 (fun _ _ => taskCompleteMsg)
        none "" ⟨[[userHiMsg]]⟩ 0) =
      some [userHiMsg, taskCompleteMsg, toolOutputMsg "call-1" (some ""),
        taskCompleteMsg, toolOutputMsg "call-1" (some "")] ∧
    (TinyAgent.run ⟨[]⟩ 0 (fun _ _ => taskCompleteMsg) none ""
        ⟨[[userHiMsg]]⟩ 0).1.get 2 = [userHiMsg] ∧
    ((firstRequestMessages (TinyAgent.run ⟨[]⟩ 10 (fun _ _ => taskCompleteMsg)
        none "" ⟨[[userHiMsg]]⟩ 0) == some [userHiMsg]) = false) :=
  ⟨rfl, rfl, rfl⟩

/-- C3 (counterexample): the claim says a request whose `arguments` is a
blank string parses as the empty object and never fails.  In the code the
fallback is `toolCall.function.arguments ?? "{}"`, whose nullish coalescing
does not cover the empty string, so `JSON.parse("")` throws: `callTool`
with `arguments: ""` fails on the parse step. -/
theorem C3_blank_arguments_counterexample :
    isParseError (ClientsRegistry.callTool ⟨[]⟩ ⟨"task_complete", some ""⟩) = true ∧
    ClientsRegistry.callTool ⟨[]⟩ ⟨"task_complete", some ""⟩ =
      .error (.jsonSyntaxError "Unexpected end of JSON input") :=
  ⟨rfl, rfl⟩

/-- C3 (amended): for every tool-call request whose `arguments` field is
absent, `ClientsRegistry.callTool` parses the arguments as the empty JSON
object and never fails on the parse step; a blank (empty-string)
`arguments`, by contrast, raises a JSON parse error, because the `??`
fallback only covers an absent field. -/
theorem C3_absent_arguments_parse_as_empty_object (reg : ClientsRegistry)
    (name : String) :
    jsonParse ((none : Option String).getD "{}") = .ok (Json.obj []) ∧
      isParseError (reg.callTool ⟨name, none⟩) = false :=
  ⟨rfl, callTool_absent_args_no_parse_error reg name⟩

/-- C10: `closeClient` and `cleanup` close connections but never remove
entries from the provider map (the source never deletes from
`this.clients`).  For every registry state, `cleanup` succeeds — it never
fails with `ClientNotRegistered`, since every key it closes is a key of the
map — emitting one close event per registered client in registration
order, and returns the provider map unchanged, so `getClientsNames` is the
same before and after; consequently a second `cleanup` (conjunct 2) again
closes every client with the same result instead of failing. -/
theorem C10_cleanup_preserves_registrations (reg : ClientsRegistry) :
    reg.cleanup = .ok (reg, reg.getClientsNames) ∧
      (match reg.cleanup with
        | .ok (reg2, _) => reg2.cleanup
        | .error e => .error e) = .ok (reg, reg.getClientsNames) := by
  have h1 : reg.cleanup = .ok (reg, reg.getClientsNames) :=
    cleanupGo_ok reg (objKeys reg.clients)
      (fun k hk => objGet_isSome_of_mem_keys reg.clients k hk)
  refine ⟨h1, ?_⟩
  rw [h1]
  exact h1

/-- C4: for every function name that is neither a built-in pseudo-tool nor
exposed by any registered provider — that is, absent from the `getTools`
catalog — `callTool` (on a request whose arguments parse, e.g. absent or
`"{}"`) fails with `ToolNotFound` carrying the requested name; this covers
both the zero-provider registry and registries whose providers expose
other names, since the registry is universally quantified.  And when the
model requests such a name during an agent-loop tool-dispatch step, the
error propagates uncaught and aborts the entire run: `TinyAgent.run`
returns that same `ToolNotFound` error and no `RunResult`. -/
theorem C4_unknown_tool_fails_and_aborts_run :
    (∀ (reg : ClientsRegistry) (name : String) (args : Option String) (j : Json),
        jsonParse (args.getD "{}") = .ok j →
        name ∉ reg.getTools.map (fun t => t.fname) →
        reg.callTool ⟨name, args⟩ = .error (.toolNotFound name)) ∧
    (∀ (reg : ClientsRegistry) (maxI : Nat) (model : Nat → List Msg → Msg)
        (ri : Option (String → String)) (rag : String) (h0 : Heap)
        (baseRef : Ref) (i name : String),
        1 ≤ maxI →
        name ∉ reg.getTools.map (fun t => t.fname) →
        name ≠ "task_complete" → name ≠ "ask_question" →
        (∀ c, (model 1 c).tool_calls = [⟨i, name, "{}"⟩]) →
        (TinyAgent.run reg maxI model ri rag h0 baseRef).2 =
          .error (.toolNotFound name)) := by
  constructor
  · intro reg name args j hp hn
    exact callTool_not_found reg name args j hp hn
  · intro reg maxI model ri rag h0 baseRef i name hmax hn hname1 hname2 hm
    obtain ⟨fuel, rfl⟩ : ∃ f, maxI = f + 1 := ⟨maxI - 1, by omega⟩
    simp only [TinyAgent.run]
    set h2 := ragSplice rag (h0.alloc (h0.get baseRef)).1
      (h0.alloc (h0.get baseRef)).2 with hh2
    set h3 := (h2.alloc (h2.get (h0.alloc (h0.get baseRef)).2)).1 with hh3
    set conv := (h2.alloc (h2.get (h0.alloc (h0.get baseRef)).2)).2 with hhconv
    have hcall : reg.callTool ⟨name, some "{}"⟩ = .error (.toolNotFound name) :=
      callTool_not_found reg name (some "{}") (Json.obj []) rfl hn
    have hexec : execToolCall reg ri ⟨i, name, "{}"⟩ =
        .error (.toolNotFound name) := by
      rw [execToolCall_other reg ri ⟨i, name, "{}"⟩ (Json.obj []) rfl hname1 hname2]
      rw [hcall]
    have hptc : processToolCalls reg ri conv [⟨i, name, "{}"⟩]
        (h3.push conv (model 1 (h3.get conv))) [] 0 =
        (h3.push conv (model 1 (h3.get conv)), .error (.toolNotFound name)) := by
      simp only [processToolCalls, hexec]
    have hcalls : (model 1 (h3.get conv)).tool_calls ≠ [] := by
      rw [hm]; simp
    have hloop : runLoop reg model ri conv (fuel + 1) 0 0 h3 [] [] =
        (h3.push conv (model 1 (h3.get conv)), .error (.toolNotFound name)) := by
      refine runLoop_succ_err reg model ri conv fuel 0 0 h3 [] []
        (h3.push conv (model 1 (h3.get conv))) (.toolNotFound name)
        (by omega) hcalls ?_
      rw [hm]
      exact hptc
    rw [hloop]

/-- Witness for C4: the empty registry with the unknown name `"ghost"`,
both at the registry level and aborting a one-interaction run. -/
theorem C4_unknown_tool_witness :
    ClientsRegistry.callTool ⟨[]⟩ ⟨"ghost", none⟩ =
      .error (.toolNotFound "ghost") ∧
    (TinyAgent.run ⟨[]⟩ 1
        (fun _ _ => ⟨"assistant", none, [⟨"c1", "ghost", "{}"⟩], none⟩) none ""
        ⟨[[userHiMsg]]⟩ 0).2 = .error (.toolNotFound "ghost") :=
  ⟨C4_unknown_tool_fails_and_aborts_run.1 ⟨[]⟩ "ghost" none (Json.obj []) rfl
      (by decide),
    C4_unknown_tool_fails_and_aborts_run.2 ⟨[]⟩ 1
      (fun _ _ => ⟨"assistant", none, [⟨"c1", "ghost", "{}"⟩], none⟩) none ""
      ⟨[[userHiMsg]]⟩ 0 "c1" "ghost" (by omega) (by decide) (by decide)
      (by decide) (fun c => rfl)⟩

/-- C1: for every model caller that requests the `task_complete` tool
exactly once in each of the first two turns (and no other tool calls),
`TinyAgent.run` with `maxInteractions = 10` terminates immediately after
the second acknowledgement: the run returns normally and the returned
`llmCalls` list has length exactly 2, so no third model invocation occurs
and the interaction ceiling is not reached. -/
theorem C1_double_task_complete_terminates_after_two_calls
    (reg : ClientsRegistry) (ri : Option (String → String)) (rag : String)
    (h0 : Heap) (baseRef : Ref) (model : Nat → List Msg → Msg)
    (hm1 : ∀ c, callsTaskCompleteOnce (model 1 c))
    (hm2 : ∀ c, callsTaskCompleteOnce (model 2 c)) :
    ∃ hf res, TinyAgent.run reg 10 model ri rag h0 baseRef = (hf, .ok res) ∧
      res.llmCalls.length = 2 := by
  simp only [TinyAgent.run]
  set h2 := ragSplice rag (h0.alloc (h0.get baseRef)).1
    (h0.alloc (h0.get baseRef)).2 with hh2
  set h3 := (h2.alloc (h2.get (h0.alloc (h0.get baseRef)).2)).1 with hh3
  set conv := (h2.alloc (h2.get (h0.alloc (h0.get baseRef)).2)).2 with hhconv
  obtain ⟨i1, a1, htc1, j1, hp1⟩ := hm1 (h3.get conv)
  set resp1 := model 1 (h3.get conv) with hresp1
  set hB := (h3.push conv resp1).push conv (toolOutputMsg i1 (some "")) with hhB
  obtain ⟨i2, a2, htc2, j2, hp2⟩ := hm2 (hB.get conv)
  set resp2 := model 2 (hB.get conv) with hresp2
  set hC := (hB.push conv resp2).push conv (toolOutputMsg i2 (some "")) with hhC
  have hptc1 : processToolCalls reg ri conv resp1.tool_calls
      (h3.push conv resp1) [] 0 =
      (hB, .ok ([⟨i1, "task_complete", j1, some ""⟩], 1)) := by
    rw [htc1,
      processToolCalls_singleton_taskComplete reg ri conv i1 a1 j1 _ _ _ hp1,
      hhB]
    simp
  have hcalls1 : resp1.tool_calls ≠ [] := by rw [htc1]; simp
  have hstep1 : runLoop reg model ri conv 10 0 0 h3 [] [] =
      runLoop reg model ri conv 9 1 1 hB [⟨conv, resp1⟩]
        [⟨i1, "task_complete", j1, some ""⟩] := by
    rw [show (10 : Nat) = 9 + 1 from rfl]
    exact runLoop_succ_ok reg model ri conv 9 0 0 h3 [] [] hB
      [⟨i1, "task_complete", j1, some ""⟩] 1 (by omega) hcalls1 hptc1
  have hptc2 : processToolCalls reg ri conv resp2.tool_calls
      (hB.push conv resp2) [⟨i1, "task_complete", j1, some ""⟩] 1 =
      (hC, .ok ([⟨i1, "task_complete", j1, some ""⟩,
        ⟨i2, "task_complete", j2, some ""⟩], 2)) := by
    rw [htc2,
      processToolCalls_singleton_taskComplete reg ri conv i2 a2 j2 _ _ _ hp2,
      hhC]
    simp
  have hcalls2 : resp2.tool_calls ≠ [] := by rw [htc2]; simp
  have hstep2 : runLoop reg model ri conv 9 1 1 hB [⟨conv, resp1⟩]
      [⟨i1, "task_complete", j1, some ""⟩] =
      runLoop reg model ri conv 8 2 2 hC [⟨conv, resp1⟩, ⟨conv, resp2⟩]
        [⟨i1, "task_complete", j1, some ""⟩,
          ⟨i2, "task_complete", j2, some ""⟩] := by
    rw [show (9 : Nat) = 8 + 1 from rfl]
    exact runLoop_succ_ok reg model ri conv 8 1 1 hB [⟨conv, resp1⟩]
      [⟨i1, "task_complete", j1, some ""⟩] hC
      [⟨i1, "task_complete", j1, some ""⟩, ⟨i2, "task_complete", j2, some ""⟩]
      2 (by omega) hcalls2 hptc2
  have hstep3 : runLoop reg model ri conv 8 2 2 hC
      [⟨conv, resp1⟩, ⟨conv, resp2⟩]
      [⟨i1, "task_complete", j1, some ""⟩,
        ⟨i2, "task_complete", j2, some ""⟩] =
      (hC, .ok ([⟨conv, resp1⟩, ⟨conv, resp2⟩],
        [⟨i1, "task_complete", j1, some ""⟩,
          ⟨i2, "task_complete", j2, some ""⟩])) := by
    rw [show (8 : Nat) = 7 + 1 from rfl]
    exact runLoop_succ_stop reg model ri conv 7 2 2 hC _ _ (by omega)
  refine ⟨hC, ⟨conv, [⟨conv, resp1⟩, ⟨conv, resp2⟩],
    [⟨i1, "task_complete", j1, some ""⟩,
      ⟨i2, "task_complete", j2, some ""⟩]⟩, ?_, rfl⟩
  rw [hstep1, hstep2, hstep3]

/-- Witness for C1: the empty registry and the constant model caller that
requests `task_complete` once per turn. -/
theorem C1_double_task_complete_witness :
    ∃ hf res, TinyAgent.run ⟨[]⟩ 10 (fun _ _ => taskCompleteMsg) none ""
        ⟨[[userHiMsg]]⟩ 0 = (hf, .ok res) ∧ res.llmCalls.length = 2 :=
  C1_double_task_complete_terminates_after_two_calls ⟨[]⟩ none ""
    ⟨[[userHiMsg]]⟩ 0 (fun _ _ => taskCompleteMsg)
    (fun _ => ⟨"call-1", "{}", rfl, Json.obj [], rfl⟩)
    (fun _ => ⟨"call-1", "{}", rfl, Json.obj [], rfl⟩)

/-- C2: `TinyAgent.run` performs at most `maxInteractions` model
invocations.  Conjunct 1: every run that returns normally has
`llmCalls.length ≤ maxInteractions` (the code default for the budget is
`defaultMaxInteractions = 10`).  Conjunct 2: with `maxInteractions = 1` and
a model that always requests at least one tool call (each dispatching
without a thrown error), the run terminates normally after exactly 1 model
call — never issuing a second one — returning the accumulated `RunResult`
rather than an error, and its `toolCalls` telemetry records exactly the
tool calls of that single turn (one record per requested call). -/
theorem C2_run_bounded_by_maxInteractions :
    (∀ (reg : ClientsRegistry) (maxI : Nat) (model : Nat → List Msg → Msg)
        (ri : Option (String → String)) (rag : String) (h0 : Heap)
        (baseRef : Ref) (hf : Heap) (res : RunResult),
        TinyAgent.run reg maxI model ri rag h0 baseRef = (hf, .ok res) →
        res.llmCalls.length ≤ maxI) ∧
    (∀ (reg : ClientsRegistry) (model : Nat → List Msg → Msg)
        (ri : Option (String → String)) (rag : String) (h0 : Heap)
        (baseRef : Ref),
        (∀ n c, (model n c).tool_calls ≠ []) →
        (∀ n c, ∀ tc ∈ (model n c).tool_calls,
          (execToolCall reg ri tc).isOk = true) →
        ∃ hf res, TinyAgent.run reg 1 model ri rag h0 baseRef = (hf, .ok res) ∧
          res.llmCalls.length = 1 ∧
          res.toolCalls.length =
            ((res.llmCalls.headD
              ⟨0, ⟨"", none, [], none⟩⟩).responseMessage).tool_calls.length) := by
  constructor
  · intro reg maxI model ri rag h0 baseRef hf res heq
    simp only [TinyAgent.run] at heq
    rcases hrl : runLoop reg model ri
        ((ragSplice rag (h0.alloc (h0.get baseRef)).1
          (h0.alloc (h0.get baseRef)).2).alloc
          ((ragSplice rag (h0.alloc (h0.get baseRef)).1
            (h0.alloc (h0.get baseRef)).2).get (h0.alloc (h0.get baseRef)).2)).2
        maxI 0 0
        ((ragSplice rag (h0.alloc (h0.get baseRef)).1
          (h0.alloc (h0.get baseRef)).2).alloc
          ((ragSplice rag (h0.alloc (h0.get baseRef)).1
            (h0.alloc (h0.get baseRef)).2).get (h0.alloc (h0.get baseRef)).2)).1
        [] [] with ⟨h4, ex⟩
    rw [hrl] at heq
    cases ex with
    | error e => simp at heq
    | ok pr =>
      obtain ⟨llm, tool⟩ := pr
      simp only [Prod.mk.injEq, Except.ok.injEq] at heq
      obtain ⟨-, heq2⟩ := heq
      have hlen := runLoop_llm_length_le reg model ri _ maxI 0 0 _ [] [] h4
        llm tool hrl
      rw [← heq2]
      simpa using hlen
  · intro reg model ri rag h0 baseRef hr hok
    simp only [TinyAgent.run]
    set h2 := ragSplice rag (h0.alloc (h0.get baseRef)).1
      (h0.alloc (h0.get baseRef)).2 with hh2
    set h3 := (h2.alloc (h2.get (h0.alloc (h0.get baseRef)).2)).1 with hh3
    set conv := (h2.alloc (h2.get (h0.alloc (h0.get baseRef)).2)).2 with hhconv
    set resp1 := model 1 (h3.get conv) with hresp1
    obtain ⟨hf, tels, ackf, hptc, hnames⟩ :=
      processToolCalls_ok_of_all_ok reg ri conv resp1.tool_calls
        (h3.push conv resp1) [] 0 (fun tc htc => hok 1 (h3.get conv) tc htc)
    have hstep1 : runLoop reg model ri conv 1 0 0 h3 [] [] =
        runLoop reg model ri conv 0 1 ackf hf [⟨conv, resp1⟩] ([] ++ tels) := by
      rw [show (1 : Nat) = 0 + 1 from rfl]
      exact runLoop_succ_ok reg model ri conv 0 0 0 h3 [] [] hf ([] ++ tels)
        ackf (by omega) (hr 1 (h3.get conv)) hptc
    refine ⟨hf, ⟨conv, [⟨conv, resp1⟩], [] ++ tels⟩, ?_, rfl, ?_⟩
    · rw [hstep1, runLoop_zero]
    · show ([] ++ tels).length = resp1.tool_calls.length
      have := congrArg List.length hnames
      simpa using this

/-- Witness for C2: conjunct 1 applied to a zero-budget run (which
returns immediately with empty telemetry), conjunct 2 applied to the
constant completion-signal model caller. -/
theorem C2_run_bounded_witness :
    (RunResult.mk 2 [] []).llmCalls.length ≤ 0 ∧
    (∃ hf res, TinyAgent.run ⟨[]⟩ 1 (fun _ _ => taskCompleteMsg) none ""
        ⟨[[userHiMsg]]⟩ 0 = (hf, .ok res) ∧
        res.llmCalls.length = 1 ∧
        res.toolCalls.length =
          ((res.llmCalls.headD
            ⟨0, ⟨"", none, [], none⟩⟩).responseMessage).tool_calls.length) :=
  ⟨C2_run_bounded_by_maxInteractions.1 ⟨[]⟩ 0 (fun _ _ => taskCompleteMsg)
      none "" ⟨[[userHiMsg]]⟩ 0 ⟨[[userHiMsg], [userHiMsg], [userHiMsg]]⟩
      (RunResult.mk 2 [] []) rfl,
    C2_run_bounded_by_maxInteractions.2 ⟨[]⟩ (fun _ _ => taskCompleteMsg)
      none "" ⟨[[userHiMsg]]⟩ 0
      (fun _ _ => by show taskCompleteMsg.tool_calls ≠ []; decide)
      (fun n c tc htc => by
        have htc2 : tc = taskCompleteCall := by
          simpa [taskCompleteMsg] using htc
        rw [htc2]
        decide)⟩

/-- C5 (counterexample): the claim says concatenating the non-overlap
portions of all chunks reconstructs the original text for every non-empty
text and positive size.  At text `"aaa bbb"` with size 4 the default
overlap is `Math.floor(4 * 0.15) = 0`, so no chunk carries an overlap
prefix and the non-overlap portions are the chunks themselves; the chunks
are `["aaa", "bbb"]` — the separating space, dropped by `split(" ")` and
never re-inserted because the merge step keeps the two parts in different
chunks — and their concatenation `"aaabbb"` is not the original text. -/
theorem C5_chunk_concat_counterexample :
    defaultOverlap 4 = 0 ∧
    chunkText "aaa bbb".toList 4 = ["aaa".toList, "bbb".toList] ∧
    ((chunkText "aaa bbb".toList 4).flatten == "aaa bbb".toList) = false := by
  refine ⟨rfl, rfl, ?_⟩
  decide

/-- C5 (amended): chunk concatenation reconstructs the text exactly when
the text contains no separator characters (no newline, no space), the case
in which `chunkText` degenerates to the single-chunk or character-level
split and adds no overlap prefixes; in general, separator occurrences at
chunk boundaries are dropped (and the overlap step may truncate content),
so the concatenation of the chunk non-overlap portions need not
reconstruct the original text. -/
theorem C5_chunk_concat_reconstructs_separator_free_text (text : List Char)
    (size : Nat) (hs : 0 < size)
    (hsep : ∀ ch ∈ text, ch ≠ '\n' ∧ ch ≠ ' ') :
    (chunkText text size).flatten = text :=
  chunkTextWithOverlap_flatten_of_no_separators text size (defaultOverlap size)
    hs hsep

/-- Witness for the amended C5 at a concrete separator-free input. -/
theorem C5_chunk_concat_witness :
    (chunkText "aaabbbcc".toList 3).flatten = "aaabbbcc".toList :=
  C5_chunk_concat_reconstructs_separator_free_text "aaabbbcc".toList 3
    (by omega) (by decide)

/-- C6: for every input text and every positive chunk size, every chunk
returned by `chunkText` has length at most the requested size — the bound
holds through the merge step, the overlap-seeding step and the
character-level split (the underlying lemmas cover each construction site,
for every overlap value the clamps can produce). -/
theorem C6_chunk_length_bounded (text : List Char) (size : Nat)
    (c : List Char) (hs : 0 < size) (hc : c ∈ chunkText text size) :
    c.length ≤ size :=
  chunkTextWithOverlap_length text size (defaultOverlap size) c hs hc

/-- Witness for C6 at a concrete input. -/
theorem C6_chunk_length_bounded_witness : ("aaa".toList : List Char).length ≤ 4 :=
  C6_chunk_length_bounded "aaa bbb".toList 4 "aaa".toList (by omega) (by decide)

end MetaTinyAgents
